import Mathlib

/-!
Verification of the cell layer of the `mux` terminal emulator
(`src/terminal-emulator/src/term/cell.rs`).

The Rust source is shallowly embedded: `Cell` becomes a Lean structure,
the fixed-capacity UTF-8 string `ArrayString<[u8; MAX_CELL_LEN]>` becomes a
`List Char` together with its UTF-8 byte length, the `bitflags!`-generated
`Flags` bit set becomes a `Nat` holding the u16 bits, and `grid::Row<Cell>`
becomes a list of cells.  Methods that mutate `&mut self` become functions
returning the updated cell (and the extra return value, where there is one).
-/

/-- Modelled from the spec: `crate::ansi::NamedColor` (ansi.rs is not under
src/).  The spec describes the named colors as "16 ANSI slots incl. default
fg/bg"; only the default foreground and background slots are used by the
cell code. -/
inductive NamedColor where
  | Black
  | Red
  | Green
  | Yellow
  | Blue
  | Magenta
  | Cyan
  | White
  | BrightBlack
  | BrightRed
  | BrightGreen
  | BrightYellow
  | BrightBlue
  | BrightMagenta
  | BrightCyan
  | BrightWhite
  | Foreground
  | Background
deriving DecidableEq, Repr

/-- Modelled from the spec: `crate::ansi::Color` (ansi.rs is not under src/):
"a tagged variant: named (16 ANSI slots incl. default fg/bg), indexed
(256-color palette index), or 24-bit RGB". -/
inductive Color where
  | Named : NamedColor → Color
  | Indexed : Nat → Color
  | Rgb : Nat → Nat → Nat → Color
deriving DecidableEq, Repr

/-- `pub const MAX_ZEROWIDTH_CHARS: usize = 5;` -/
def MAX_ZEROWIDTH_CHARS : Nat := 5

/-- `pub const MAX_CELL_LEN: usize = 4 * (1 + MAX_ZEROWIDTH_CHARS);` -/
def MAX_CELL_LEN : Nat := 4 * (1 + MAX_ZEROWIDTH_CHARS)

namespace Flags

/-! The `bitflags!` block of cell.rs: each flag is a u16 bit pattern. -/

def INVERSE : Nat := 0b0000000001
def BOLD : Nat := 0b0000000010
def ITALIC : Nat := 0b0000000100
def UNDERLINE : Nat := 0b0000001000
def WRAPLINE : Nat := 0b0000010000
def WIDE_CHAR : Nat := 0b0000100000
def WIDE_CHAR_SPACER : Nat := 0b0001000000
def DIM : Nat := 0b0010000000
def DIM_BOLD : Nat := 0b0010000010
def HIDDEN : Nat := 0b0100000000
def STRIKEOUT : Nat := 0b1000000000

/-- `Flags::empty()` from bitflags: no bit set. -/
def empty : Nat := 0

/-- `Flags::contains` from bitflags: all bits of the argument are present,
`self.bits & other.bits == other.bits`. -/
def contains (f m : Nat) : Bool := f &&& m == m

end Flags

/-- Rust `char::len_utf8`: the number of bytes of the UTF-8 encoding of a
character, which is what occupies capacity in the `ArrayString`. -/
def len_utf8 (c : Char) : Nat :=
  if c.toNat < 0x80 then 1
  else if c.toNat < 0x800 then 2
  else if c.toNat < 0x10000 then 3
  else 4

/-- UTF-8 byte length of the cell contents (`ArrayString::len`). -/
def utf8Len (s : List Char) : Nat := (s.map len_utf8).sum

/-- Modelled from the spec: `ArrayString::push` of the arrayvec dependency
(not under src/) over the `MAX_CELL_LEN`-byte backing array.  The spec fixes
the overflow behavior: "a small fixed-size array with an explicit length
counter and saturating push (silently drops beyond capacity)"; a character
whose UTF-8 encoding does not fit in the remaining capacity is discarded. -/
def contents_push (s : List Char) (c : Char) : List Char :=
  if utf8Len s + len_utf8 c ≤ MAX_CELL_LEN then s ++ [c] else s

/-- `pub struct Cell { fg, bg, flags, contents }`; `contents` is the character
sequence of the `ArrayString<[u8; MAX_CELL_LEN]>`. -/
structure Cell where
  fg : Color
  bg : Color
  flags : Nat
  contents : List Char
deriving DecidableEq, Repr

/-- `Cell::new`: one-character contents, given colors, empty flags. -/
def Cell.new (c : Char) (fg bg : Color) : Cell :=
  { contents := contents_push [] c
    bg := bg
    fg := fg
    flags := Flags.empty }

/-- `impl Default for Cell`: space glyph, named default foreground and
background. -/
def Cell.default : Cell :=
  Cell.new ' ' (Color.Named NamedColor.Foreground) (Color.Named NamedColor.Background)

/-- `Cell::reset(&mut self, template)`: `*self = *template`. -/
def Cell.reset (_self template : Cell) : Cell := template

/-- `Cell::push_extra`: `self.contents.push(c)`. -/
def Cell.push_extra (cell : Cell) (c : Char) : Cell :=
  { cell with contents := contents_push cell.contents c }

/-- `Cell::first_char`: `self.contents.as_str().chars().next()`; the source
panics when the contents are empty, rendered here as `none`. -/
def Cell.first_char (cell : Cell) : Option Char :=
  cell.contents.head?

/-- `Cell::set_char`: builds a fresh one-character contents, swaps it with the
cell contents, and returns the previous contents. -/
def Cell.set_char (cell : Cell) (chr : Char) : Cell × List Char :=
  ({ cell with contents := contents_push [] chr }, cell.contents)

/-- `Cell::chars`: starts from `[' '; 1 + MAX_ZEROWIDTH_CHARS]` and overwrites
position `i` with the `i`-th character of the contents, for the first
`1 + MAX_ZEROWIDTH_CHARS` characters. -/
def Cell.chars (cell : Cell) : List Char :=
  (cell.contents.enum.take (1 + MAX_ZEROWIDTH_CHARS)).foldl
    (fun out ic => out.set ic.1 ic.2)
    (List.replicate (1 + MAX_ZEROWIDTH_CHARS) ' ')

/-- Modelled from the spec: `grid::Row<Cell>` (grid.rs is not under src/) is
an "ordered sequence of Cells", embedded as a list; `self.len()` is the list
length, `self[Column(i)]` the `i`-th cell, and `self[..].iter().rev()` the
reversed list. -/
def Row := List Cell

/-- `LineLength::line_length for grid::Row<Cell>`.  The source first indexes
`self[Column(self.len() - 1)]`, which panics on an empty row (underflow),
rendered here as `none`.  Otherwise: if the last cell has `WRAPLINE`, the full
width; else `length` stays 0 unless some reversed-enumerated cell has contents
other than `" "`, in which case `length = len - index` for the first such. -/
def line_length (row : List Cell) : Option Nat :=
  match row.getLast? with
  | none => none
  | some last =>
      if Flags.contains last.flags Flags.WRAPLINE then
        some row.length
      else
        some (match row.reverse.findIdx? (fun c => decide (c.contents ≠ [' '])) with
              | some idx => row.length - idx
              | none => 0)

/-! ### Helper lemmas about UTF-8 lengths and the saturating push -/

theorem len_utf8_pos (c : Char) : 1 ≤ len_utf8 c := by
  unfold len_utf8
  split
  · omega
  · split
    · omega
    · split <;> omega

theorem len_utf8_le_four (c : Char) : len_utf8 c ≤ 4 := by
  unfold len_utf8
  split
  · omega
  · split
    · omega
    · split <;> omega

theorem contents_push_nil (c : Char) : contents_push [] c = [c] := by
  have h := len_utf8_le_four c
  unfold contents_push
  rw [if_pos]
  · rfl
  · simp only [utf8Len, List.map_nil, List.sum_nil]
    unfold MAX_CELL_LEN MAX_ZEROWIDTH_CHARS
    omega

/-! ### Claims about `Cell::reset`, `Cell::default`, `Cell::set_char`,
`Cell::push_extra` -/

/-- C4: For every cell and every template cell, after `reset(template)` the
cell equals the template in all fields — foreground, background, flags, and
glyph contents — i.e. reset is a full overwrite from the template, not a
partial "clear content but keep style" reset. -/
theorem reset_is_full_overwrite (cell template : Cell) :
    (Cell.reset cell template).fg = template.fg ∧
    (Cell.reset cell template).bg = template.bg ∧
    (Cell.reset cell template).flags = template.flags ∧
    (Cell.reset cell template).contents = template.contents ∧
    Cell.reset cell template = template :=
  ⟨rfl, rfl, rfl, rfl, rfl⟩

/-- C5: The default cell has glyph contents equal to a single space character,
foreground the named default-foreground color, background the named
default-background color, and an empty style-flag set. -/
theorem default_cell_fields :
    Cell.default.contents = [' '] ∧
    Cell.default.fg = Color.Named NamedColor.Foreground ∧
    Cell.default.bg = Color.Named NamedColor.Background ∧
    Cell.default.flags = Flags.empty :=
  ⟨contents_push_nil ' ', rfl, rfl, rfl⟩

/-- C8: For every cell and character, `set_char(c)` returns the previous
contents, leaves the cell holding exactly the single character `c` (stored
combining marks are dropped), and leaves fg, bg and flags unchanged. -/
theorem set_char_spec (cell : Cell) (chr : Char) :
    (cell.set_char chr).1.contents = [chr] ∧
    (cell.set_char chr).1.fg = cell.fg ∧
    (cell.set_char chr).1.bg = cell.bg ∧
    (cell.set_char chr).1.flags = cell.flags ∧
    (cell.set_char chr).2 = cell.contents :=
  ⟨contents_push_nil chr, rfl, rfl, rfl, rfl⟩

/-- C3: Appending a combining character with `push_extra` never fails: when
the fixed-capacity contents buffer cannot hold the character, the character is
silently discarded (the cell is returned unchanged); when it fits, it is
appended; the styling fields are never touched. -/
theorem push_extra_saturates (cell : Cell) (c : Char) :
    (MAX_CELL_LEN < utf8Len cell.contents + len_utf8 c → cell.push_extra c = cell) ∧
    (utf8Len cell.contents + len_utf8 c ≤ MAX_CELL_LEN →
      (cell.push_extra c).contents = cell.contents ++ [c]) ∧
    (cell.push_extra c).fg = cell.fg ∧
    (cell.push_extra c).bg = cell.bg ∧
    (cell.push_extra c).flags = cell.flags := by
  refine ⟨?_, ?_, rfl, rfl, rfl⟩
  · intro h
    show { cell with contents := contents_push cell.contents c } = cell
    unfold contents_push
    rw [if_neg (by omega)]
  · intro h
    show (contents_push cell.contents c) = cell.contents ++ [c]
    unfold contents_push
    rw [if_pos h]

/-- Witness for C3: a cell whose contents already occupy all `MAX_CELL_LEN`
bytes is returned unchanged by `push_extra`. -/
theorem push_extra_saturates_witness :
    MAX_CELL_LEN <
      utf8Len (Cell.mk (Color.Named NamedColor.Foreground)
        (Color.Named NamedColor.Background) Flags.empty
        (List.replicate MAX_CELL_LEN 'a')).contents + len_utf8 'b' ∧
    Cell.push_extra
      (Cell.mk (Color.Named NamedColor.Foreground)
        (Color.Named NamedColor.Background) Flags.empty
        (List.replicate MAX_CELL_LEN 'a')) 'b' =
      Cell.mk (Color.Named NamedColor.Foreground)
        (Color.Named NamedColor.Background) Flags.empty
        (List.replicate MAX_CELL_LEN 'a') :=
  ⟨by decide,
   (push_extra_saturates
      (Cell.mk (Color.Named NamedColor.Foreground)
        (Color.Named NamedColor.Background) Flags.empty
        (List.replicate MAX_CELL_LEN 'a')) 'b').1 (by decide)⟩

/-! ### Claim about the `DIM_BOLD` flag pattern -/

theorem land_dim_bold_iff (f : Nat) :
    (f &&& 130 = 130) ↔ (f &&& 128 = 128 ∧ f &&& 2 = 2) := by
  have p7 : (2 : Nat) ^ 7 = 128 := by norm_num
  have p1 : (2 : Nat) ^ 1 = 2 := by norm_num
  have e128 := Nat.and_two_pow f 7
  rw [p7] at e128
  have e2 := Nat.and_two_pow f 1
  rw [p1] at e2
  have e130 : f &&& 130 = (f &&& 128) ||| (f &&& 2) := by
    rw [show (130 : Nat) = 128 ||| 2 by decide]
    exact Nat.and_or_distrib_left ..
  rw [e130, e128, e2]
  cases f.testBit 7 <;> cases f.testBit 1 <;> decide

/-- C7: The combined `DIM_BOLD` style flag is the union of `DIM` and `BOLD`:
a cell's flags contain `DIM_BOLD` exactly when they contain both `DIM` and
`BOLD`. -/
theorem dim_bold_is_dim_and_bold (cell : Cell) :
    Flags.contains cell.flags Flags.DIM_BOLD = true ↔
      (Flags.contains cell.flags Flags.DIM = true ∧
       Flags.contains cell.flags Flags.BOLD = true) := by
  simp only [Flags.contains, Flags.DIM_BOLD, Flags.DIM, Flags.BOLD, beq_iff_eq]
  exact land_dim_bold_iff cell.flags

/-! ### Claims about `LineLength::line_length` -/

/-- C2: For every non-empty row whose last cell has the `WRAPLINE` flag set,
`line_length` returns the full row width, regardless of how many trailing
cells contain spaces. -/
theorem line_length_wrapline_full_width (row : List Cell) (h : row ≠ [])
    (hw : Flags.contains (row.getLast h).flags Flags.WRAPLINE = true) :
    line_length row = some row.length := by
  unfold line_length
  rw [List.getLast?_eq_getLast row h]
  simp [hw]

/-- Witness for C2: a one-cell row of a space-content cell carrying
`WRAPLINE` has occupied length 1, the full width. -/
theorem line_length_wrapline_full_width_witness :
    line_length [Cell.mk (Color.Named NamedColor.Foreground)
      (Color.Named NamedColor.Background) Flags.WRAPLINE [' ']] = some 1 :=
  line_length_wrapline_full_width
    [Cell.mk (Color.Named NamedColor.Foreground)
      (Color.Named NamedColor.Background) Flags.WRAPLINE [' ']]
    (by decide) (by decide)

/-- C1: For every non-empty row whose last cell does not have `WRAPLINE`,
`line_length` returns one past the position of the last cell whose glyph
contents are not a single space; if every cell's contents are a single space,
it returns 0. -/
theorem line_length_no_wrapline (row : List Cell) (h : row ≠ [])
    (hw : Flags.contains (row.getLast h).flags Flags.WRAPLINE = false) :
    ((∀ c ∈ row, c.contents = [' ']) → line_length row = some 0) ∧
    (∀ i (hi : i < row.length), row[i].contents ≠ [' '] →
      (∀ j (hj : j < row.length), i < j → row[j].contents = [' ']) →
      line_length row = some (i + 1)) := by
  constructor
  · intro hall
    unfold line_length
    rw [List.getLast?_eq_getLast row h]
    simp only [hw, Bool.false_eq_true, if_false]
    have hnone : row.reverse.findIdx? (fun c => decide (c.contents ≠ [' '])) = none := by
      rw [List.findIdx?_eq_none_iff]
      intro x hx
      simp [hall x (List.mem_reverse.mp hx)]
    rw [hnone]
  · intro i hi hne hafter
    unfold line_length
    rw [List.getLast?_eq_getLast row h]
    simp only [hw, Bool.false_eq_true, if_false]
    have hsome : row.reverse.findIdx? (fun c => decide (c.contents ≠ [' ']))
        = some (row.length - 1 - i) := by
      rw [List.findIdx?_eq_some_iff_getElem]
      refine ⟨by simp only [List.length_reverse]; omega, ?_, ?_⟩
      · rw [List.getElem_reverse]
        simp only [show row.length - 1 - (row.length - 1 - i) = i from by omega]
        simpa using hne
      · intro j hj
        rw [List.getElem_reverse]
        have hgt : i < row.length - 1 - j := by omega
        have hlt : row.length - 1 - j < row.length := by omega
        simp [hafter (row.length - 1 - j) hlt hgt]
    rw [hsome]
    simp only [show row.length - (row.length - 1 - i) = i + 1 from by omega]

/-- Witness for C1: in the row `['a'-cell, default cell]` the last non-space
cell is at position 0, so the occupied length is 1. -/
theorem line_length_no_wrapline_witness :
    line_length [Cell.mk (Color.Named NamedColor.Foreground)
      (Color.Named NamedColor.Background) Flags.empty ['a'], Cell.default]
      = some 1 :=
  (line_length_no_wrapline
    [Cell.mk (Color.Named NamedColor.Foreground)
      (Color.Named NamedColor.Background) Flags.empty ['a'], Cell.default]
    (by decide) (by decide)).2 0 (by decide) (by decide) (by decide)

/-! ### Claim about the per-cell combining-character bound -/

theorem utf8Len_append (s : List Char) (c : Char) :
    utf8Len (s ++ [c]) = utf8Len s + len_utf8 c := by
  simp [utf8Len]

theorem length_le_utf8Len (s : List Char) : s.length ≤ utf8Len s := by
  induction s with
  | nil => simp [utf8Len]
  | cons c cs ih =>
    have := len_utf8_pos c
    simp only [utf8Len, List.map_cons, List.sum_cons, List.length_cons]
    simp only [utf8Len] at ih
    omega

theorem utf8Len_contents_push (s : List Char) (c : Char)
    (h : utf8Len s ≤ MAX_CELL_LEN) :
    utf8Len (contents_push s c) ≤ MAX_CELL_LEN := by
  unfold contents_push
  split
  · next hc => rw [utf8Len_append]; omega
  · exact h

/-- Counterexample to C6 as stated: starting from the default cell, six
`push_extra` calls with an ASCII character all fit in the
`MAX_CELL_LEN`-byte buffer, leaving 7 characters in the contents — strictly
more than `1 + MAX_ZEROWIDTH_CHARS = 6`. -/
theorem six_pushes_exceed_char_bound :
    ¬ ((((List.replicate 6 'a').foldl Cell.push_extra Cell.default).contents).length
        ≤ 1 + MAX_ZEROWIDTH_CHARS) := by decide

/-- C6 (amended): the capacity bound of a cell's contents is `MAX_CELL_LEN`
UTF-8 bytes, not `1 + MAX_ZEROWIDTH_CHARS` characters: for every cell built
by `new` (in particular the default cell) followed by any sequence of
`push_extra` calls, the UTF-8 byte length of its contents never exceeds
`MAX_CELL_LEN`, and hence its character count never exceeds `MAX_CELL_LEN`
either. -/
theorem contents_byte_length_bounded (c : Char) (fg bg : Color) (cs : List Char) :
    utf8Len ((cs.foldl Cell.push_extra (Cell.new c fg bg)).contents) ≤ MAX_CELL_LEN ∧
    ((cs.foldl Cell.push_extra (Cell.new c fg bg)).contents).length ≤ MAX_CELL_LEN := by
  have key : ∀ (l : List Char) (cell : Cell), utf8Len cell.contents ≤ MAX_CELL_LEN →
      utf8Len ((l.foldl Cell.push_extra cell).contents) ≤ MAX_CELL_LEN := by
    intro l
    induction l with
    | nil => intro cell hc; simpa using hc
    | cons x xs ih =>
      intro cell hc
      simp only [List.foldl_cons]
      exact ih _ (utf8Len_contents_push _ _ hc)
  have h0 : utf8Len (Cell.new c fg bg).contents ≤ MAX_CELL_LEN := by
    show utf8Len (contents_push [] c) ≤ MAX_CELL_LEN
    rw [contents_push_nil]
    have := len_utf8_le_four c
    simp only [utf8Len, List.map_cons, List.map_nil, List.sum_cons, List.sum_nil]
    unfold MAX_CELL_LEN MAX_ZEROWIDTH_CHARS
    omega
  exact ⟨key cs _ h0, le_trans (length_le_utf8Len _) (key cs _ h0)⟩

/-! ### Claim about `Cell::first_char` totality -/

theorem contents_push_ne_nil (s : List Char) (c : Char) : contents_push s c ≠ [] := by
  unfold contents_push
  split
  · simp
  · next hc =>
    intro hnil
    rw [hnil] at hc
    apply hc
    have := len_utf8_le_four c
    simp only [utf8Len, List.map_nil, List.sum_nil]
    unfold MAX_CELL_LEN MAX_ZEROWIDTH_CHARS
    omega

/-- Cells reachable through the public operations of cell.rs: `Cell::new`
(`Cell::default` is `new ' '` at the default colors), `reset` with a
reachable template, `set_char`, and `push_extra`. -/
inductive Reachable : Cell → Prop where
  | new (c : Char) (fg bg : Color) : Reachable (Cell.new c fg bg)
  | reset (cell : Cell) {template : Cell} :
      Reachable template → Reachable (Cell.reset cell template)
  | set_char {cell : Cell} (chr : Char) :
      Reachable cell → Reachable (cell.set_char chr).1
  | push_extra {cell : Cell} (c : Char) :
      Reachable cell → Reachable (cell.push_extra c)

/-- C9: every cell reachable through the public operations has non-empty
glyph contents, so `first_char` returns a character and the source's panic
branch (`"cell should always have at least one char"`) is unreachable. -/
theorem reachable_first_char_total (cell : Cell) (h : Reachable cell) :
    cell.contents ≠ [] ∧ ∃ c, cell.first_char = some c := by
  have hne : cell.contents ≠ [] := by
    induction h with
    | new c fg bg => exact contents_push_ne_nil [] c
    | reset cell ht ih => exact ih
    | set_char chr ht ih => exact contents_push_ne_nil [] chr
    | push_extra c ht ih => exact contents_push_ne_nil _ c
  refine ⟨hne, ?_⟩
  unfold Cell.first_char
  cases hc : cell.contents with
  | nil => exact absurd hc hne
  | cons a as => exact ⟨a, by simp⟩

/-- Witness for C9: the default cell is reachable and its first character is
defined. -/
theorem reachable_first_char_total_witness :
    Cell.default.contents ≠ [] ∧ ∃ c, Cell.default.first_char = some c :=
  reachable_first_char_total Cell.default
    (Reachable.new ' ' (Color.Named NamedColor.Foreground)
      (Color.Named NamedColor.Background))

/-! ### Claim about `Cell::chars` -/

theorem enumFrom_take {α : Type} :
    ∀ (l : List α) (i k : Nat),
      (List.enumFrom i l).take k = List.enumFrom i (l.take k) := by
  intro l
  induction l with
  | nil => intro i k; simp
  | cons x xs ih =>
    intro i k
    cases k with
    | zero => simp
    | succ k => simp [List.enumFrom_cons, List.take_succ_cons, ih]

theorem foldl_set_enumFrom :
    ∀ (l : List Char) (i : Nat) (out : List Char), i + l.length ≤ out.length →
      (List.enumFrom i l).foldl (fun o p => o.set p.1 p.2) out
        = out.take i ++ l ++ out.drop (i + l.length) := by
  intro l
  induction l with
  | nil =>
    intro i out h
    simp [List.take_append_drop]
  | cons c cs ih =>
    intro i out h
    simp only [List.length_cons] at h
    have hi : i < out.length := by omega
    rw [List.enumFrom_cons]
    simp only [List.foldl_cons]
    rw [ih (i + 1) (out.set i c) (by simp only [List.length_set]; omega)]
    rw [List.set_eq_take_append_cons_drop, if_pos hi]
    have hlen : (out.take i).length = i := by
      simp only [List.length_take]
      omega
    rw [List.take_append_eq_append_take, List.drop_append_eq_append_drop, hlen]
    rw [List.take_of_length_le (le_of_eq (by omega : (out.take i).length = i) |>.trans (by omega))]
    have e1 : i + 1 - i = 1 := by omega
    have e2 : i + 1 + cs.length - i = cs.length + 1 := by omega
    rw [e1, e2]
    have e4 : List.drop (i + 1 + cs.length) (List.take i out) = [] :=
      List.drop_eq_nil_of_le (by rw [hlen]; omega)
    rw [e4]
    simp only [List.take_succ_cons, List.take_zero, List.drop_succ_cons,
      List.drop_drop, List.nil_append, List.length_cons, List.append_assoc,
      List.cons_append, List.singleton_append]
    have e3 : i + 1 + cs.length = i + (cs.length + 1) := by omega
    rw [e3]

/-- C10: `chars()` returns exactly `1 + MAX_ZEROWIDTH_CHARS` characters: its
prefix is the first at most `1 + MAX_ZEROWIDTH_CHARS` characters of the
cell's contents in order, and every remaining position is a space. -/
theorem chars_spec (cell : Cell) :
    cell.chars.length = 1 + MAX_ZEROWIDTH_CHARS ∧
    cell.chars = cell.contents.take (1 + MAX_ZEROWIDTH_CHARS)
      ++ List.replicate ((1 + MAX_ZEROWIDTH_CHARS)
          - (cell.contents.take (1 + MAX_ZEROWIDTH_CHARS)).length) ' ' := by
  have hmain : cell.chars = cell.contents.take (1 + MAX_ZEROWIDTH_CHARS)
      ++ List.replicate ((1 + MAX_ZEROWIDTH_CHARS)
          - (cell.contents.take (1 + MAX_ZEROWIDTH_CHARS)).length) ' ' := by
    unfold Cell.chars
    rw [List.enum_eq_enumFrom, enumFrom_take]
    rw [foldl_set_enumFrom _ 0 _
      (by
        simp only [List.length_replicate, Nat.zero_add]
        exact List.length_take_le (1 + MAX_ZEROWIDTH_CHARS) cell.contents)]
    simp [List.drop_replicate]
  refine ⟨?_, hmain⟩
  rw [hmain]
  have hle := List.length_take_le (1 + MAX_ZEROWIDTH_CHARS) cell.contents
  simp only [List.length_append, List.length_replicate]
  omega
